import Mathlib

/-!
Shallow embedding of `surfaces.h`, a small combinator library of 2D scalar
fields ("surfaces": functions from a point to a real value).

Modelling choices:

* The C++ `Real` type (an alias for `double`) is modelled by `ℚ`.  Every
  operation the embedded functions perform on it — comparison, negation,
  addition, multiplication, division, `std::floor`, `std::trunc`,
  `std::fmod` — is exact on the rationals, so `ℚ` carries the intended
  (exact-arithmetic) semantics of the code.
* `std::trunc` is rounding toward zero (`truncQ`); `std::fmod a b` is the
  exact remainder `a - b * trunc (a / b)` (`fmodQ`).
* The `INFINITY` sentinel that `scale` returns for a zero scale component
  is modelled by `⊤` in `WithTop ℚ`.
* `rings` feeds the radius `sqrt (x² + y²)` — irrational in general — to
  `stripes`, so `rings` and the copy of `stripes` it invokes are embedded
  over `ℝ` (`stripesRe`, with `truncRe`/`fmodRe` the real counterparts of
  the rounding primitives).
* The variadic template `compose` is embedded as a typed chain of
  composable functions (`FChain`) together with the recursion
  `composeChain`, which mirrors the template specialisations of
  `Surfaces_details::compose_details` case by case.
* `rotate`, `sin_wave` and `cos_wave` involve transcendental functions and
  are not needed here, so they are not embedded.
-/

namespace Surfaces

/-- Rounding toward zero: the semantics of C `std::trunc` on `ℚ`. -/
def truncQ (q : ℚ) : ℚ := if 0 ≤ q then (⌊q⌋ : ℚ) else (⌈q⌉ : ℚ)

/-- Exact semantics of C `std::fmod`: `fmod a b = a - b * trunc (a / b)`. -/
def fmodQ (a b : ℚ) : ℚ := a - b * truncQ (a / b)

/-- `struct Point`: an immutable pair of `Real` coordinates. -/
structure Point where
  x : ℚ
  y : ℚ

/-- `using Surface = std::function<Real(Point)>`. -/
abbrev Surface : Type := Point → ℚ

/-- `plain()`: the constant-zero surface. -/
def plain : Surface := fun _ => 0

/-- `slope()`: returns `p.x`. -/
def slope : Surface := fun p => p.x

/-- `steps(s)`: `(s <= 0.0) ? 0.0 : std::floor(p.x / s)`. -/
def steps (s : ℚ) : Surface := fun p =>
  if s ≤ 0 then 0 else (⌊p.x / s⌋ : ℚ)

/-- `stripes(s)`:
`s <= 0 ? 0 : (p.x > 0 ? fmod(trunc(p.x/s) == p.x/s ? floor(p.x/s) : floor(p.x/s) + 1, 2.0) : fmod(floor((-p.x)/s), 2.0))`. -/
def stripes (s : ℚ) : Surface := fun p =>
  if s ≤ 0 then 0
  else if 0 < p.x then
    fmodQ (if truncQ (p.x / s) = p.x / s then (⌊p.x / s⌋ : ℚ)
           else (⌊p.x / s⌋ : ℚ) + 1) 2
  else fmodQ (⌊(-p.x) / s⌋ : ℚ) 2

/-- `checker(s)`:
`s <= 0.0 ? 0.0 : fmod(stripes(s)(Point(-p.x, -p.y)) + stripes(s)(Point(-p.y, -p.x)) + 1, 2.0)`. -/
def checker (s : ℚ) : Surface := fun p =>
  if s ≤ 0 then 0
  else fmodQ (stripes s ⟨-p.x, -p.y⟩ + stripes s ⟨-p.y, -p.x⟩ + 1) 2

/-- `sqr()`: returns `p.x * p.x`. -/
def sqr : Surface := fun p => p.x * p.x

/-- `ellipse(a, b)`:
`(a <= 0.0 || b <= 0.0) ? 0.0 : ((p.x*p.x)/(a*a) + (p.y*p.y)/(b*b)) <= 1.0 ? 1.0 : 0.0`. -/
def ellipse (a b : ℚ) : Surface := fun p =>
  if a ≤ 0 ∨ b ≤ 0 then 0
  else if p.x * p.x / (a * a) + p.y * p.y / (b * b) ≤ 1 then 1 else 0

/-- `rectangle(a, b)`:
`(a <= 0.0 || b <= 0.0) ? 0.0 : (-a <= p.x && p.x <= a && -b <= p.y && p.y <= b ? 1.0 : 0.0)`. -/
def rectangle (a b : ℚ) : Surface := fun p =>
  if a ≤ 0 ∨ b ≤ 0 then 0
  else if -a ≤ p.x ∧ p.x ≤ a ∧ -b ≤ p.y ∧ p.y ≤ b then 1 else 0

/-- Rounding toward zero on `ℝ` (C `std::trunc`), for the radius in `rings`. -/
noncomputable def truncRe (x : ℝ) : ℝ := if 0 ≤ x then (⌊x⌋ : ℝ) else (⌈x⌉ : ℝ)

/-- C `std::fmod` on `ℝ`: `a - b * trunc (a / b)`. -/
noncomputable def fmodRe (a b : ℝ) : ℝ := a - b * truncRe (a / b)

/-- The body of `stripes(s)` evaluated at a point with x-coordinate `x : ℝ`
and y-coordinate 0, as invoked by `rings` on the radius. -/
noncomputable def stripesRe (s : ℚ) (x : ℝ) : ℝ :=
  if (s : ℝ) ≤ 0 then 0
  else if 0 < x then
    fmodRe (if truncRe (x / s) = x / s then (⌊x / (s : ℝ)⌋ : ℝ)
            else (⌊x / (s : ℝ)⌋ : ℝ) + 1) 2
  else fmodRe (⌊(-x) / (s : ℝ)⌋ : ℝ) 2

/-- `rings(s)`:
`s <= 0 ? 0.0 : ((p.x == 0 && p.y == 0) ? 1.0 : stripes(s)(Point(sqrt(p.x*p.x + p.y*p.y), 0.0)))`. -/
noncomputable def rings (s : ℚ) (p : Point) : ℝ :=
  if s ≤ 0 then 0
  else if p.x = 0 ∧ p.y = 0 then 1
  else stripesRe s (Real.sqrt ((p.x : ℝ) * p.x + (p.y : ℝ) * p.y))

/-- `translate(f, v)`: evaluates `f` at `Point(p.x - v.x, p.y - v.y)`. -/
def translate (f : Surface) (v : Point) : Surface := fun p =>
  f ⟨p.x - v.x, p.y - v.y⟩

/-- `scale(f, s)`:
`s.x == 0 || s.y == 0 ? INFINITY : f(Point(p.x / s.x, p.y / s.y))`;
the result lives in `WithTop ℚ`, whose `⊤` models `INFINITY`. -/
def scale (f : Surface) (s : Point) : Point → WithTop ℚ := fun p =>
  if s.x = 0 ∨ s.y = 0 then (⊤ : WithTop ℚ)
  else ((f ⟨p.x / s.x, p.y / s.y⟩ : ℚ) : WithTop ℚ)

/-- `invert(f)`: evaluates `f` at the coordinate-swapped point. -/
def invert (f : Surface) : Surface := fun p => f ⟨p.y, p.x⟩

/-- `flip(f)`: evaluates `f` at `Point(-p.x, p.y)`. -/
def flip (f : Surface) : Surface := fun p => f ⟨-p.x, p.y⟩

/-- `mul(f, c)`: post-multiplies the output of `f` by `c`. -/
def mul (f : Surface) (c : ℚ) : Surface := fun p => f p * c

/-- `add(f, c)`: post-adds `c` to the output of `f`. -/
def add (f : Surface) (c : ℚ) : Surface := fun p => f p + c

/-- A typed chain of composable functions, the argument pack `Fs...` of the
variadic template `compose`. -/
inductive FChain : Type → Type → Type 1 where
  | nil : {α : Type} → FChain α α
  | cons : {α β γ : Type} → (α → β) → FChain β γ → FChain α γ

/-- `Surfaces_details::compose_details<Fs...>::compose`, one equation per
template specialisation: the empty pack yields the identity lambda, and
`compose(f, fs...)` yields `[=](auto p) { return compose(fs...)(f(p)); }`
(the single-element specialisation returns `f` itself, which agrees with
the recursion extensionally). -/
def composeChain : {α γ : Type} → FChain α γ → α → γ
  | _, _, .nil, p => p
  | _, _, .cons f fs, p => composeChain fs (f p)

/-- On a nonnegative argument, truncation toward zero is the floor. -/
lemma truncQ_of_nonneg {q : ℚ} (h : 0 ≤ q) : truncQ q = ⌊q⌋ := if_pos h

/-- `fmod` of a nonnegative integer by 2 is its arithmetic remainder mod 2. -/
lemma fmodQ_two_int (n : ℤ) (h : 0 ≤ n) : fmodQ (n : ℚ) 2 = ((n % 2 : ℤ) : ℚ) := by
  have h2 : (0 : ℚ) ≤ (n : ℚ) / 2 := by positivity
  have hf : ⌊(n : ℚ) / 2⌋ = n / 2 := by
    have := Rat.floor_intCast_div_natCast n 2
    simpa using this
  rw [fmodQ, truncQ_of_nonneg h2, hf]
  have hdm := Int.ediv_add_emod n 2
  have : ((2 * (n / 2) + n % 2 : ℤ) : ℚ) = ((n : ℤ) : ℚ) := by rw [hdm]
  push_cast at this ⊢
  linarith

/-- For a positive period, `stripes` is an `fmod` by 2 of a nonnegative integer. -/
lemma stripes_eq_fmod_int (s : ℚ) (hs : 0 < s) (p : Point) :
    ∃ n : ℤ, 0 ≤ n ∧ stripes s p = fmodQ (n : ℚ) 2 := by
  simp only [stripes, if_neg (not_le.mpr hs)]
  by_cases hx : 0 < p.x
  · rw [if_pos hx]
    have hq : (0 : ℚ) ≤ p.x / s := (div_pos hx hs).le
    have hfl : (0 : ℤ) ≤ ⌊p.x / s⌋ := Int.floor_nonneg.mpr hq
    by_cases ht : truncQ (p.x / s) = p.x / s
    · exact ⟨⌊p.x / s⌋, hfl, by rw [if_pos ht]⟩
    · refine ⟨⌊p.x / s⌋ + 1, by omega, ?_⟩
      rw [if_neg ht]
      push_cast
      ring_nf
  · rw [if_neg hx]
    have hnx : (0 : ℚ) ≤ -p.x := by linarith [not_lt.mp hx]
    exact ⟨⌊(-p.x) / s⌋, Int.floor_nonneg.mpr (div_nonneg hnx hs.le), rfl⟩

/-- For a positive period, `stripes` only takes the values 0 and 1. -/
lemma stripes_range (s : ℚ) (hs : 0 < s) (p : Point) :
    stripes s p = 0 ∨ stripes s p = 1 := by
  obtain ⟨n, hn, he⟩ := stripes_eq_fmod_int s hs p
  rw [he, fmodQ_two_int n hn]
  rcases Int.emod_two_eq n with h | h
  · left; rw [h]; norm_num
  · right; rw [h]; norm_num

/-- C1 fails on the code: `stripes(1)` returns 1 at `Point(0.5, 0)` (the
non-exact positive branch adds 1 to the floor) and 0 at `Point(1.5, 0)`,
the opposite of the claimed values. -/
theorem stripes_scenario_cex :
    ¬ (stripes 1 ⟨1/2, 0⟩ = 0 ∧ stripes 1 ⟨3/2, 0⟩ = 1) := by
  norm_num [stripes, fmodQ, truncQ]

/-- C1 (amended): `stripes(1)` evaluated at `Point(0.5, 0)` returns 1.0, and
`stripes(1)` evaluated at `Point(1.5, 0)` returns 0.0. -/
theorem stripes_scenario :
    stripes 1 ⟨1/2, 0⟩ = 1 ∧ stripes 1 ⟨3/2, 0⟩ = 0 := by
  norm_num [stripes, fmodQ, truncQ]

/-- C2 fails on the code: at `s = 1`, `p = (0, 0)` both diagonal-reflection
stripes terms are 0, so their sum mod 2 is 0, yet `checker` returns 1
because the implementation adds 1 before reducing mod 2. -/
theorem checker_sum_cex :
    ¬ (checker 1 ⟨0, 0⟩ =
        fmodQ (stripes 1 ⟨-0, -0⟩ + stripes 1 ⟨-0, -0⟩) 2) := by
  norm_num [checker, stripes, fmodQ, truncQ]

/-- C2 (amended): for every `s > 0` and every point `p`, `checker(s)(p)`
equals the sum of `stripes(s)` evaluated on the two diagonal reflections of
`p`, plus 1, taken mod 2. -/
theorem checker_combination (s : ℚ) (hs : 0 < s) (p : Point) :
    checker s p =
      fmodQ (stripes s ⟨-p.x, -p.y⟩ + stripes s ⟨-p.y, -p.x⟩ + 1) 2 := by
  simp only [checker, if_neg (not_le.mpr hs)]

/-- Witness for the amended C2 at `s = 1`, `p = (1/2, 1/3)`. -/
theorem checker_combination_witness :
    checker 1 ⟨1/2, 1/3⟩ =
      fmodQ (stripes 1 ⟨-(1/2), -(1/3)⟩ + stripes 1 ⟨-(1/3), -(1/2)⟩ + 1) 2 :=
  checker_combination 1 (by norm_num) ⟨1/2, 1/3⟩

/-- C3: for every `s > 0` and point `p`, if `p.x > 0` the banding index is
`⌊p.x/s⌋` when `p.x/s` is an exact integer and `⌊p.x/s⌋ + 1` otherwise; if
`p.x ≤ 0` the index is `⌊(-p.x)/s⌋` with no exact-multiple adjustment; the
returned value is that index mod 2. -/
theorem stripes_tiebreak (s : ℚ) (hs : 0 < s) (p : Point) :
    stripes s p =
      if 0 < p.x then
        if (⌊p.x / s⌋ : ℚ) = p.x / s then ((⌊p.x / s⌋ % 2 : ℤ) : ℚ)
        else (((⌊p.x / s⌋ + 1) % 2 : ℤ) : ℚ)
      else ((⌊(-p.x) / s⌋ % 2 : ℤ) : ℚ) := by
  have hns := not_le.mpr hs
  by_cases hx : 0 < p.x
  · have hq : (0 : ℚ) ≤ p.x / s := (div_pos hx hs).le
    have hfl : (0 : ℤ) ≤ ⌊p.x / s⌋ := Int.floor_nonneg.mpr hq
    simp only [stripes, if_neg hns, if_pos hx, truncQ_of_nonneg hq]
    by_cases ht : (⌊p.x / s⌋ : ℚ) = p.x / s
    · rw [if_pos ht, if_pos ht, fmodQ_two_int _ hfl]
    · rw [if_neg ht, if_neg ht,
          show ((⌊p.x / s⌋ : ℚ) + 1) = ((⌊p.x / s⌋ + 1 : ℤ) : ℚ) by push_cast; ring,
          fmodQ_two_int _ (by omega)]
  · have hnx : (0 : ℚ) ≤ -p.x := by linarith [not_lt.mp hx]
    have hfl : (0 : ℤ) ≤ ⌊(-p.x) / s⌋ := Int.floor_nonneg.mpr (div_nonneg hnx hs.le)
    simp only [stripes, if_neg hns, if_neg hx]
    rw [fmodQ_two_int _ hfl]

/-- Witness for C3 at `s = 1`, `p = (1/2, 0)`. -/
theorem stripes_tiebreak_witness :
    (0 : ℚ) < 1 ∧
    stripes 1 ⟨1/2, 0⟩ =
      (if 0 < (1/2 : ℚ) then
        if (⌊(1/2 : ℚ) / 1⌋ : ℚ) = (1/2 : ℚ) / 1 then ((⌊(1/2 : ℚ) / 1⌋ % 2 : ℤ) : ℚ)
        else (((⌊(1/2 : ℚ) / 1⌋ + 1) % 2 : ℤ) : ℚ)
      else ((⌊(-(1/2 : ℚ)) / 1⌋ % 2 : ℤ) : ℚ)) :=
  ⟨by norm_num, stripes_tiebreak 1 (by norm_num) ⟨1/2, 0⟩⟩

/-- C4: for `s ≤ 0`, `steps`, `stripes`, `checker` and `rings` all return 0;
for `a ≤ 0` or `b ≤ 0`, `ellipse` and `rectangle` return 0, at every point. -/
theorem degenerate_sentinels (s a b : ℚ) (p : Point) :
    (s ≤ 0 → steps s p = 0 ∧ stripes s p = 0 ∧ checker s p = 0 ∧ rings s p = 0) ∧
    ((a ≤ 0 ∨ b ≤ 0) → ellipse a b p = 0 ∧ rectangle a b p = 0) := by
  constructor
  · intro hs
    refine ⟨?_, ?_, ?_, ?_⟩ <;> simp [steps, stripes, checker, rings, hs]
  · intro hab
    constructor <;> simp [ellipse, rectangle, hab]

/-- Witness for C4 at `s = 0`, `a = 0`, `b = 1`, `p = (2, 3)`. -/
theorem degenerate_sentinels_witness :
    (steps 0 ⟨2, 3⟩ = 0 ∧ stripes 0 ⟨2, 3⟩ = 0 ∧ checker 0 ⟨2, 3⟩ = 0 ∧
      rings 0 ⟨2, 3⟩ = 0) ∧
    (ellipse 0 1 ⟨2, 3⟩ = 0 ∧ rectangle 0 1 ⟨2, 3⟩ = 0) :=
  ⟨(degenerate_sentinels 0 0 1 ⟨2, 3⟩).1 (by norm_num),
   (degenerate_sentinels 0 0 1 ⟨2, 3⟩).2 (Or.inl (by norm_num))⟩

/-- C5: `scale(f, s)(p)` is `+∞` (modelled `⊤`) when either scale component
is 0, and `f(Point(p.x/s.x, p.y/s.y))` otherwise; in particular
`scale(slope(), Point(0,1))(Point(5,0))` is `+∞`. -/
theorem scale_spec (f : Surface) (s p : Point) :
    (s.x = 0 ∨ s.y = 0 → scale f s p = ⊤) ∧
    (s.x ≠ 0 → s.y ≠ 0 →
      scale f s p = ((f ⟨p.x / s.x, p.y / s.y⟩ : ℚ) : WithTop ℚ)) ∧
    scale slope ⟨0, 1⟩ ⟨5, 0⟩ = ⊤ := by
  refine ⟨fun h => ?_, fun hx hy => ?_, ?_⟩
  · simp [scale, h]
  · simp [scale, hx, hy]
  · simp [scale]

/-- Witness for C5: the zero-component case at `slope`, `s = (0,1)`,
`p = (5,0)`, and the nonzero case at `s = (2,1)`, `p = (6,3)`. -/
theorem scale_spec_witness :
    scale slope ⟨0, 1⟩ ⟨5, 0⟩ = ⊤ ∧
    scale slope ⟨2, 1⟩ ⟨6, 3⟩ = ((3 : ℚ) : WithTop ℚ) := by
  constructor
  · exact (scale_spec slope ⟨0, 1⟩ ⟨5, 0⟩).1 (Or.inl rfl)
  · have h := (scale_spec slope ⟨2, 1⟩ ⟨6, 3⟩).2.1 (by norm_num) (by norm_num)
    rw [h]
    norm_num [slope]

/-- C6: for every `s > 0` and every point, `stripes s` returns 0 or 1, and
`checker s` returns 0 or 1. -/
theorem stripes_checker_range (s : ℚ) (hs : 0 < s) (p : Point) :
    (stripes s p = 0 ∨ stripes s p = 1) ∧
    (checker s p = 0 ∨ checker s p = 1) := by
  refine ⟨stripes_range s hs p, ?_⟩
  have h1 := stripes_range s hs ⟨-p.x, -p.y⟩
  have h2 := stripes_range s hs ⟨-p.y, -p.x⟩
  simp only [checker, if_neg (not_le.mpr hs)]
  rcases h1 with h1 | h1 <;> rcases h2 with h2 | h2 <;> rw [h1, h2] <;>
    norm_num [fmodQ, truncQ]

/-- Witness for C6 at `s = 1`, `p = (1/2, 0)`. -/
theorem stripes_checker_range_witness :
    (stripes 1 ⟨1/2, 0⟩ = 0 ∨ stripes 1 ⟨1/2, 0⟩ = 1) ∧
    (checker 1 ⟨1/2, 0⟩ = 0 ∨ checker 1 ⟨1/2, 0⟩ = 1) :=
  stripes_checker_range 1 (by norm_num) ⟨1/2, 0⟩

/-- C7: translating by `v` and then by `(-v.x, -v.y)` returns the original
surface value at every point. -/
theorem translate_round_trip (f : Surface) (v : Point) (p : Point) :
    translate (translate f v) ⟨-v.x, -v.y⟩ p = f p := by
  simp only [translate]
  have hx : p.x - -v.x - v.x = p.x := by ring
  have hy : p.y - -v.y - v.y = p.y := by ring
  rw [hx, hy]

/-- C8: `compose` applies its arguments as a left-to-right pipeline — the
empty chain is the identity, prepending `f` to a chain first applies `f`
and feeds the result to the rest, and in particular a three-function chain
computes `h (g (f x))`. -/
theorem compose_pipeline :
    (∀ (α : Type) (x : α), composeChain FChain.nil x = x) ∧
    (∀ (α β γ : Type) (f : α → β) (fs : FChain β γ) (x : α),
      composeChain (FChain.cons f fs) x = composeChain fs (f x)) ∧
    (∀ (α β γ δ : Type) (f : α → β) (g : β → γ) (h : γ → δ) (x : α),
      composeChain (FChain.cons f (FChain.cons g (FChain.cons h FChain.nil))) x =
        h (g (f x))) :=
  ⟨fun _ _ => rfl, fun _ _ _ _ _ _ => rfl, fun _ _ _ _ _ _ _ _ => rfl⟩

/-- C9: for every `s > 0`, `checker s` returns 1 at the origin. -/
theorem checker_origin (s : ℚ) (hs : 0 < s) : checker s ⟨0, 0⟩ = 1 := by
  simp only [checker, stripes, if_neg (not_le.mpr hs)]
  norm_num [fmodQ, truncQ]

/-- Witness for C9 at `s = 3`. -/
theorem checker_origin_witness : checker 3 ⟨0, 0⟩ = 1 :=
  checker_origin 3 (by norm_num)

/-- C10: flipping twice returns the original surface value at every point. -/
theorem flip_involution (f : Surface) (p : Point) : flip (flip f) p = f p := by
  simp only [flip, neg_neg]

end Surfaces
